import Mathlib

namespace PQ

/-!
Shallow embedding of `src/priority_queue.py`: a priority-ordered command
execution queue.  The Python `PriorityQueue` stores a `defaultdict(list)`
mapping an integer priority to the ordered list of its tasks; tasks are
dictionaries with keys `command`, `state`, `log` and `time_processing`.
We model the dict as an association list in key-insertion order (Python
dicts preserve insertion order and have unique keys; uniqueness is the
`QueueWF` predicate below).  The external command runner
(`subprocess.check_output`) is modelled as an environment `ExecEnv`
mapping a command string to a result: a success flag, the captured
combined output, and the wall-clock seconds the call took.
-/

/-- The three task states of the module: `STATE_WAITING`, `STATE_SUCCESS`,
`STATE_ERROR`. -/
inductive TaskState where
  | WAITING
  | SUCCESS
  | ERROR
deriving DecidableEq, Repr

/-- One task dictionary: `{'command': …, 'state': …, 'log': …, 'time_processing': …}`.
`log` is `None` until executed (`none`), then the captured output.
`time_processing` models the float seconds; we use `Int` (the measured
wall-clock delta, which the code does not constrain). -/
structure Task where
  command : String
  state : TaskState
  log : Option String
  time_processing : Int
deriving DecidableEq, Repr

/-- `self._queue`: a `defaultdict(list)` from priority to the bucket of
tasks, in key-insertion order. -/
abbrev Queue := List (Int × List Task)

/-- Python dict keys are unique; an association list models a dict only
when its keys are nodup. -/
def QueueWF (q : Queue) : Prop := (q.map Prod.fst).Nodup

instance : DecidablePred QueueWF := fun q =>
  inferInstanceAs (Decidable (q.map Prod.fst).Nodup)

/-- Result of one invocation of the external command runner
(`subprocess.check_output` with `stderr=STDOUT`): success flag, combined
captured output, and the elapsed wall-clock time measured around the call. -/
structure CmdResult where
  ok : Bool
  output : String
  elapsed : Int
deriving DecidableEq, Repr

/-- The external CommandRunner capability. -/
structure ExecEnv where
  runner : String → CmdResult

/-- Dict lookup `self._queue[p]` without the defaultdict side effect:
the bucket at key `p`, if present. -/
def findBucket (q : Queue) (p : Int) : Option (List Task) :=
  (q.find? (fun e => e.1 = p)).map Prod.snd

/-- The task at `(priority, index)`, if present. -/
def getTask (q : Queue) (p : Int) (i : Nat) : Option Task :=
  (findBucket q p).bind (fun b => b.get? i)

/-- In-place mutation of the task dict at `(p, i)` (Python mutates the
shared list object; with unique keys, mapping over entries with key `p`
is the same). -/
def setTask (q : Queue) (p : Int) (i : Nat) (t : Task) : Queue :=
  q.map (fun e => if e.1 = p then (e.1, e.2.set i t) else e)

/-- `self._queue[p].append(data)`: appends to the bucket at `p`, creating
the bucket (at the end, per dict insertion order) if absent — the
defaultdict behaviour. -/
def appendTask (q : Queue) (p : Int) (t : Task) : Queue :=
  if (q.find? (fun e => e.1 = p)).isSome then
    q.map (fun e => if e.1 = p then (e.1, e.2 ++ [t]) else e)
  else
    q ++ [(p, [t])]

/-- Input to `add_task`: a task dictionary that may be missing the
`command` or `priority` key (a missing key raises `KeyError`, caught by
the code). -/
structure TaskInput where
  command : Option String
  priority : Option Int
deriving DecidableEq, Repr

/-- `PriorityQueue.add_task`.  The code reads `task['priority']` first
(missing → `KeyError` → `False`), rejects priorities outside `[1, 10]`,
then reads `task['command']` while building the data dict (missing →
`KeyError` → `False`, before the queue is touched), then appends the new
`WAITING` task. -/
def add_task (q : Queue) (task : TaskInput) : Queue × Bool :=
  match task.priority with
  | none => (q, false)
  | some p =>
    if 1 ≤ p ∧ p ≤ 10 then
      match task.command with
      | none => (q, false)
      | some c =>
        (appendTask q p { command := c, state := TaskState.WAITING,
                          log := none, time_processing := 0 }, true)
    else (q, false)

/-- The task dict after the runner call in `_execute`: `log` and `state`
from the outcome, `time_processing` from the clock. -/
def updTask (env : ExecEnv) (t : Task) : Task :=
  { t with
    state := if (env.runner t.command).ok then TaskState.SUCCESS else TaskState.ERROR
    log := some (env.runner t.command).output
    time_processing := (env.runner t.command).elapsed }

/-- `PriorityQueue._execute`.  `self._queue[priority]` on a missing key
auto-vivifies an empty bucket (defaultdict) before `[task_index]` raises
`IndexError`; a raised `IndexError` is modelled as result `none`.  On a
present task the runner outcome is absorbed into the task and the
boolean success flag is returned. -/
def execute (env : ExecEnv) (q : Queue) (p : Int) (i : Nat) : Queue × Option Bool :=
  match findBucket q p with
  | none => (q ++ [(p, [])], none)
  | some b =>
    match b.get? i with
    | none => (q, none)
    | some t => (setTask q p i (updTask env t), some (env.runner t.command).ok)

/-- `PriorityQueue.clear_queue`: `self._queue = defaultdict(list)`. -/
def clear_queue (_q : Queue) : Queue := []

/-- Descending stable insertion into a key-sorted list. -/
def insertDesc (e : Int × List Task) : Queue → Queue
  | [] => [e]
  | f :: rest => if f.1 ≤ e.1 then e :: f :: rest else f :: insertDesc e rest

/-- `sorted(_queue.items(), reverse=True)`: buckets by descending
priority key (keys are unique, so the tuple comparison never reaches the
lists). -/
def sortDesc : Queue → Queue
  | [] => []
  | e :: rest => insertDesc e (sortDesc rest)

/-- All `(priority, index)` positions visited by the `run` loop, in visit
order: buckets from highest to lowest key, indices in bucket order. -/
def positions (q : Queue) : List (Int × Nat) :=
  (sortDesc q).flatMap (fun e => (List.range e.2.length).map (fun i => (e.1, i)))

/-- Whether the task at a position currently has state `WAITING`
(the guard `command_data['state'] == STATE_WAITING` of the run loop). -/
def taskWaiting (q : Queue) (pos : Int × Nat) : Bool :=
  match getTask q pos.1 pos.2 with
  | some t => t.state = TaskState.WAITING
  | none => false

/-- The runner's success flag for the task at a position (`false` when
absent; used only to describe `run`'s collected results). -/
def posOk (env : ExecEnv) (q : Queue) (pos : Int × Nat) : Bool :=
  match getTask q pos.1 pos.2 with
  | some t => (env.runner t.command).ok
  | none => false

/-- The body of `run`'s nested loop over the snapshot positions: skip
non-`WAITING` tasks, execute the rest, accumulating the boolean results
and (as instrumentation) the trace of executed positions.  A raised
`IndexError` propagates as `none` (unreachable from a well-formed
queue). -/
def runGo (env : ExecEnv) (q : Queue) : List (Int × Nat) → Option (Queue × List Bool × List (Int × Nat))
  | [] => some (q, [], [])
  | pos :: rest =>
    match getTask q pos.1 pos.2 with
    | none => none
    | some t =>
      if t.state = TaskState.WAITING then
        match execute env q pos.1 pos.2 with
        | (_, none) => none
        | (q1, some b) =>
          match runGo env q1 rest with
          | none => none
          | some (q', bs, tr) => some (q', b :: bs, pos :: tr)
      else runGo env q rest

/-- `run`'s traversal: final queue, collected `result` list, and the
trace of executed positions. -/
def runAux (env : ExecEnv) (q : Queue) : Option (Queue × List Bool × List (Int × Nat)) :=
  runGo env q (positions q)

/-- `PriorityQueue.run`: processes every `WAITING` task highest priority
first, optionally clears the queue, returns `all(result)`. -/
def run (env : ExecEnv) (q : Queue) (auto_clear : Bool) : Option (Queue × Bool) :=
  match runAux env q with
  | none => none
  | some (q', bs, _) => some ((if auto_clear then clear_queue q' else q'), bs.all id)

/-- Execution order demanded of the trace: strictly earlier positions have
a strictly higher priority key, or the same key and a smaller index. -/
def execBefore (a b : Int × Nat) : Prop :=
  b.1 < a.1 ∨ (a.1 = b.1 ∧ a.2 < b.2)

instance : ∀ a b, Decidable (execBefore a b) := fun a b =>
  inferInstanceAs (Decidable (b.1 < a.1 ∨ (a.1 = b.1 ∧ a.2 < b.2)))

/-- The key/bucket-length skeleton of a queue; `run` never changes it. -/
def shape (q : Queue) : List (Int × Nat) :=
  q.map (fun e => (e.1, e.2.length))

/-- A concrete runner used to evaluate the development on closed inputs:
every command succeeds except the literal command "fail", the captured
output is "out:" followed by the command, one second elapses. -/
def envDemo : ExecEnv := ⟨fun c => ⟨decide (c ≠ "fail"), "out:" ++ c, 1⟩⟩

/-- The spec scenario: three tasks added at priorities 1, 10, 1 in that
order. -/
def scenarioQueue : Queue :=
  (add_task (add_task (add_task [] ⟨some "one", some 1⟩).1 ⟨some "two", some 10⟩).1
    ⟨some "three", some 1⟩).1

/-- A queue holding one task whose command fails under `envDemo`. -/
def qFail : Queue := (add_task [] ⟨some "fail", some 3⟩).1

/-! ### Lookup and update lemmas -/

theorem findBucket_nil (p : Int) : findBucket [] p = none := rfl

theorem findBucket_cons (p0 : Int) (b0 : List Task) (q : Queue) (p : Int) :
    findBucket ((p0, b0) :: q) p = if p0 = p then some b0 else findBucket q p := by
  by_cases h : p0 = p <;> simp [findBucket, List.find?_cons, h]

theorem findBucket_mem {q : Queue} {p : Int} {b : List Task}
    (hwf : QueueWF q) (hm : (p, b) ∈ q) : findBucket q p = some b := by
  induction q with
  | nil => simp at hm
  | cons e rest ih =>
    obtain ⟨p0, b0⟩ := e
    rw [findBucket_cons]
    rcases List.mem_cons.mp hm with hm | hm
    · simp at hm
      simp [hm.1, hm.2]
    · have hne : p0 ≠ p := by
        intro hpe
        subst hpe
        have : p0 ∈ rest.map Prod.fst := List.mem_map.mpr ⟨(p0, b), hm, rfl⟩
        exact (List.nodup_cons.mp hwf).1 this
      have hwf' : QueueWF rest := (List.nodup_cons.mp hwf).2
      simp [hne, ih hwf' hm]

theorem findBucket_some_mem {q : Queue} {p : Int} {b : List Task}
    (h : findBucket q p = some b) : (p, b) ∈ q := by
  unfold findBucket at h
  obtain ⟨e, hfind, hsnd⟩ := Option.map_eq_some'.mp h
  have hkey : e.1 = p := by
    have := List.find?_some hfind
    exact of_decide_eq_true this
  have hmem := List.mem_of_find?_eq_some hfind
  have : e = (p, b) := by
    obtain ⟨e1, e2⟩ := e
    simp at hkey hsnd
    simp [hkey, hsnd]
  rwa [this] at hmem

theorem findBucket_setTask (q : Queue) (p : Int) (i : Nat) (u : Task) (p' : Int) :
    findBucket (setTask q p i u) p'
      = if p' = p then (findBucket q p).map (fun b => b.set i u) else findBucket q p' := by
  induction q with
  | nil => by_cases h : p' = p <;> simp [setTask, findBucket_nil, h]
  | cons e rest ih =>
    obtain ⟨p0, b0⟩ := e
    have hset : setTask ((p0, b0) :: rest) p i u
        = (if p0 = p then (p0, b0.set i u) else (p0, b0)) :: setTask rest p i u := by
      simp [setTask]
    rw [hset]
    by_cases h0 : p0 = p
    · by_cases h0' : p0 = p'
      · have hp : p' = p := h0'.symm.trans h0
        rw [if_pos hp, if_pos h0, findBucket_cons, findBucket_cons, if_pos h0', if_pos h0]
        simp
      · have hp : ¬ p' = p := fun he => h0' (h0.trans he.symm)
        rw [if_neg hp, if_pos h0, findBucket_cons, findBucket_cons, if_neg h0', if_neg h0',
          ih, if_neg hp]
    · by_cases h0' : p0 = p'
      · have hp : ¬ p' = p := fun he => h0 (h0'.trans he)
        rw [if_neg hp, if_neg h0, findBucket_cons, findBucket_cons, if_pos h0', if_pos h0']
      · rw [if_neg h0]
        by_cases hp : p' = p
        · rw [if_pos hp, findBucket_cons, findBucket_cons, if_neg h0', if_neg h0, ih, if_pos hp]
        · rw [if_neg hp, findBucket_cons, findBucket_cons, if_neg h0', if_neg h0', ih, if_neg hp]

theorem getTask_setTask_same {q : Queue} {p : Int} {i : Nat} {t : Task} (u : Task)
    (h : getTask q p i = some t) : getTask (setTask q p i u) p i = some u := by
  unfold getTask at h ⊢
  obtain ⟨b, hb, hget⟩ := Option.bind_eq_some.mp h
  rw [findBucket_setTask, if_pos rfl, hb]
  have hlt : i < b.length := by
    by_contra hge
    rw [List.get?_eq_none.mpr (Nat.le_of_not_lt hge)] at hget
    exact Option.noConfusion hget
  simp [List.getElem?_set_self hlt]

theorem getTask_setTask_frame {q : Queue} {p p' : Int} {i i' : Nat} (u : Task)
    (h : (p', i') ≠ (p, i)) : getTask (setTask q p i u) p' i' = getTask q p' i' := by
  unfold getTask
  rw [findBucket_setTask]
  by_cases hp : p' = p
  · subst hp
    have hi : i' ≠ i := by
      intro hie
      exact h (by rw [hie])
    cases hfb : findBucket q p' with
    | none => rw [if_pos rfl]; rfl
    | some b => simp [List.getElem?_set_ne (fun he => hi he.symm)]
  · rw [if_neg hp]

theorem shape_setTask (q : Queue) (p : Int) (i : Nat) (u : Task) :
    shape (setTask q p i u) = shape q := by
  unfold shape setTask
  rw [List.map_map]
  apply List.map_congr_left
  intro e _
  by_cases h : e.1 = p <;> simp [h]

theorem execute_getTask_some (env : ExecEnv) {q : Queue} {p : Int} {i : Nat} {t : Task}
    (h : getTask q p i = some t) :
    execute env q p i = (setTask q p i (updTask env t), some (env.runner t.command).ok) := by
  unfold getTask at h
  obtain ⟨b, hb, hget⟩ := Option.bind_eq_some.mp h
  unfold execute
  rw [hb]
  simp only []
  rw [hget]

theorem getTask_setTask_none {q : Queue} {p p' : Int} {i i' : Nat} (u : Task)
    (h : getTask q p' i' = none) : getTask (setTask q p i u) p' i' = none := by
  unfold getTask at h ⊢
  rw [findBucket_setTask]
  by_cases hp : p' = p
  · subst hp
    cases hfb : findBucket q p' with
    | none => rw [if_pos rfl]; rfl
    | some b =>
      rw [hfb] at h
      rw [if_pos rfl]
      simp only [Option.map_some', Option.some_bind] at h ⊢
      rw [List.get?_eq_none] at h ⊢
      simpa using h
  · rw [if_neg hp]
    exact h

/-! ### Sorting lemmas: `sortDesc` is a permutation sorted by descending key -/

theorem insertDesc_perm (e : Int × List Task) (l : Queue) :
    List.Perm (insertDesc e l) (e :: l) := by
  induction l with
  | nil => simp [insertDesc]
  | cons f rest ih =>
    by_cases h : f.1 ≤ e.1
    · simp [insertDesc, h]
    · rw [insertDesc, if_neg h]
      exact (ih.cons f).trans (List.Perm.swap e f rest)

theorem sortDesc_perm (q : Queue) : List.Perm (sortDesc q) q := by
  induction q with
  | nil => exact List.Perm.refl []
  | cons e rest ih =>
    exact (insertDesc_perm e (sortDesc rest)).trans (ih.cons e)

theorem insertDesc_sorted (e : Int × List Task) {l : Queue}
    (hl : l.Pairwise (fun a b => b.1 ≤ a.1)) :
    (insertDesc e l).Pairwise (fun a b => b.1 ≤ a.1) := by
  induction l with
  | nil => simp [insertDesc]
  | cons f rest ih =>
    obtain ⟨hf, hrest⟩ := List.pairwise_cons.mp hl
    by_cases h : f.1 ≤ e.1
    · rw [insertDesc, if_pos h]
      refine List.pairwise_cons.mpr ⟨?_, hl⟩
      intro x hx
      rcases List.mem_cons.mp hx with hx | hx
      · rw [hx]; exact h
      · exact le_trans (hf x hx) h
    · rw [insertDesc, if_neg h]
      refine List.pairwise_cons.mpr ⟨?_, ih hrest⟩
      intro x hx
      rcases List.mem_cons.mp ((insertDesc_perm e rest).mem_iff.mp hx) with hx | hx
      · rw [hx]; exact le_of_lt (lt_of_not_le h)
      · exact hf x hx

theorem sortDesc_sorted (q : Queue) : (sortDesc q).Pairwise (fun a b => b.1 ≤ a.1) := by
  induction q with
  | nil => simp [sortDesc]
  | cons e rest ih => exact insertDesc_sorted e ih

theorem sortDesc_wf {q : Queue} (hwf : QueueWF q) : QueueWF (sortDesc q) := by
  unfold QueueWF at hwf ⊢
  exact (((sortDesc_perm q).map Prod.fst).nodup_iff).mpr hwf

theorem sortDesc_strict {q : Queue} (hwf : QueueWF q) :
    (sortDesc q).Pairwise (fun a b => b.1 < a.1) := by
  have h1 := sortDesc_sorted q
  have h2 : (sortDesc q).Pairwise (fun a b => a.1 ≠ b.1) :=
    List.pairwise_map.mp (sortDesc_wf hwf)
  exact (h1.and h2).imp (fun h => lt_of_le_of_ne h.1 (Ne.symm h.2))

/-! ### The positions visited by the run loop -/

theorem mem_positions {q : Queue} {p : Int} {i : Nat} :
    (p, i) ∈ positions q ↔ ∃ b, (p, b) ∈ q ∧ i < b.length := by
  unfold positions
  rw [List.mem_flatMap]
  constructor
  · rintro ⟨⟨e1, e2⟩, he, hx⟩
    obtain ⟨j, hj, hji⟩ := List.mem_map.mp hx
    have hp : e1 = p := congrArg Prod.fst hji
    have hi : j = i := congrArg Prod.snd hji
    subst hp
    subst hi
    exact ⟨e2, (sortDesc_perm q).mem_iff.mp he, List.mem_range.mp hj⟩
  · rintro ⟨b, hb, hi⟩
    exact ⟨(p, b), (sortDesc_perm q).mem_iff.mpr hb,
      List.mem_map.mpr ⟨i, List.mem_range.mpr hi, rfl⟩⟩

theorem getTask_isSome_iff {q : Queue} (hwf : QueueWF q) (p : Int) (i : Nat) :
    (getTask q p i).isSome ↔ (p, i) ∈ positions q := by
  rw [mem_positions]
  constructor
  · intro h
    obtain ⟨t, ht⟩ := Option.isSome_iff_exists.mp h
    obtain ⟨b, hb, hget⟩ := Option.bind_eq_some.mp ht
    refine ⟨b, findBucket_some_mem hb, ?_⟩
    by_contra hge
    rw [List.get?_eq_none.mpr (Nat.le_of_not_lt hge)] at hget
    exact Option.noConfusion hget
  · rintro ⟨b, hb, hi⟩
    unfold getTask
    rw [findBucket_mem hwf hb]
    simp [List.get?_eq_getElem?, hi]

theorem positions_pairwise {q : Queue} (hwf : QueueWF q) :
    (positions q).Pairwise execBefore := by
  unfold positions
  rw [List.pairwise_flatMap]
  constructor
  · intro e _
    rw [List.pairwise_map]
    exact (List.pairwise_lt_range _).imp (fun h => Or.inr ⟨rfl, h⟩)
  · refine (sortDesc_strict hwf).imp ?_
    intro e1 e2 h x hx y hy
    obtain ⟨j1, _, hj1⟩ := List.mem_map.mp hx
    obtain ⟨j2, _, hj2⟩ := List.mem_map.mp hy
    left
    rw [← hj1, ← hj2]
    exact h

theorem execBefore_ne {a b : Int × Nat} (h : execBefore a b) : a ≠ b := by
  rintro rfl
  rcases h with h | h
  · exact lt_irrefl _ h
  · exact lt_irrefl _ h.2

theorem positions_nodup {q : Queue} (hwf : QueueWF q) : (positions q).Nodup :=
  (positions_pairwise hwf).imp execBefore_ne

/-! ### Shape preservation -/

theorem shape_map_fst (q : Queue) : (shape q).map Prod.fst = q.map Prod.fst := by
  unfold shape
  rw [List.map_map]
  rfl

theorem wf_of_shape_eq {q q' : Queue} (h : shape q' = shape q) (hwf : QueueWF q) :
    QueueWF q' := by
  unfold QueueWF at hwf ⊢
  rw [← shape_map_fst, h, shape_map_fst]
  exact hwf

theorem shape_cons (e : Int × List Task) (l : Queue) :
    shape (e :: l) = (e.1, e.2.length) :: shape l := rfl

theorem insertDesc_shape {e1 e2 : Int × List Task} {l1 l2 : Queue}
    (he : (e1.1, e1.2.length) = (e2.1, e2.2.length)) (hl : shape l1 = shape l2) :
    shape (insertDesc e1 l1) = shape (insertDesc e2 l2) := by
  induction l1 generalizing l2 with
  | nil =>
    cases l2 with
    | nil => simpa [insertDesc, shape_cons, shape] using he
    | cons f2 r2 => exact absurd hl (by simp [shape])
  | cons f1 r1 ih =>
    cases l2 with
    | nil => exact absurd hl (by simp [shape])
    | cons f2 r2 =>
      rw [shape_cons, shape_cons] at hl
      injection hl with hf hr
      have hkey : f1.1 = f2.1 := by injection hf
      have hekey : e1.1 = e2.1 := by injection he
      by_cases hc : f1.1 ≤ e1.1
      · rw [insertDesc, if_pos hc, insertDesc, if_pos (by rw [← hkey, ← hekey]; exact hc)]
        rw [shape_cons, shape_cons, shape_cons, shape_cons, he, hf, hr]
      · rw [insertDesc, if_neg hc, insertDesc, if_neg (by rw [← hkey, ← hekey]; exact hc)]
        rw [shape_cons, shape_cons, hf, ih hr]

theorem sortDesc_shape {q1 q2 : Queue} (h : shape q1 = shape q2) :
    shape (sortDesc q1) = shape (sortDesc q2) := by
  induction q1 generalizing q2 with
  | nil =>
    cases q2 with
    | nil => rfl
    | cons f2 r2 => exact absurd h (by simp [shape])
  | cons f1 r1 ih =>
    cases q2 with
    | nil => exact absurd h (by simp [shape])
    | cons f2 r2 =>
      rw [shape_cons, shape_cons] at h
      injection h with hf hr
      rw [sortDesc, sortDesc]
      exact insertDesc_shape hf (ih hr)

theorem positions_eq_shape (q : Queue) :
    positions q
      = (shape (sortDesc q)).flatMap (fun e => (List.range e.2).map (fun i => (e.1, i))) := by
  unfold positions shape
  rw [List.flatMap_map]

theorem positions_shape_congr {q1 q2 : Queue} (h : shape q1 = shape q2) :
    positions q1 = positions q2 := by
  rw [positions_eq_shape, positions_eq_shape, sortDesc_shape h]

/-! ### The master lemma about the run loop -/

/-- Processing a list of distinct, valid positions succeeds, updates
exactly the tasks that were `WAITING` at those positions, leaves every
other task untouched, executes exactly the `WAITING` positions in list
order, and collects the runner's success flags. -/
theorem runGo_spec (env : ExecEnv) (ps : List (Int × Nat)) (q : Queue)
    (hnd : ps.Nodup) (hval : ∀ pos ∈ ps, (getTask q pos.1 pos.2).isSome) :
    ∃ q' bs tr, runGo env q ps = some (q', bs, tr)
      ∧ (∀ p i t, getTask q p i = some t →
            getTask q' p i
              = some (if (p, i) ∈ ps ∧ t.state = TaskState.WAITING then updTask env t else t))
      ∧ (∀ p i, getTask q p i = none → getTask q' p i = none)
      ∧ shape q' = shape q
      ∧ tr = ps.filter (fun pos => taskWaiting q pos)
      ∧ bs = tr.map (posOk env q) := by
  induction ps generalizing q with
  | nil => exact ⟨q, [], [], rfl, by simp, by simp, rfl, rfl, rfl⟩
  | cons pos rest ih =>
    obtain ⟨p, i⟩ := pos
    obtain ⟨t, ht0⟩ := Option.isSome_iff_exists.mp (hval (p, i) (List.mem_cons_self _ _))
    have ht : getTask q p i = some t := ht0
    have hnotmem : (p, i) ∉ rest := (List.nodup_cons.mp hnd).1
    have hndr : rest.Nodup := (List.nodup_cons.mp hnd).2
    by_cases hw : t.state = TaskState.WAITING
    · have hexec := execute_getTask_some env ht
      have hframe : ∀ pj : Int × Nat, pj ∈ rest →
          getTask (setTask q p i (updTask env t)) pj.1 pj.2 = getTask q pj.1 pj.2 := by
        intro pj hj
        apply getTask_setTask_frame
        intro he
        apply hnotmem
        have hpj : pj = (p, i) := by
          obtain ⟨pj1, pj2⟩ := pj
          exact he
        rwa [hpj] at hj
      have hval1 : ∀ pos ∈ rest, (getTask (setTask q p i (updTask env t)) pos.1 pos.2).isSome := by
        intro pj hj
        rw [hframe pj hj]
        exact hval pj (List.mem_cons_of_mem _ hj)
      obtain ⟨q', bs', tr', hrun, hsome, hnone, hshape, htr, hbs⟩ := ih _ hndr hval1
      refine ⟨q', (env.runner t.command).ok :: bs', (p, i) :: tr', ?_, ?_, ?_, ?_, ?_, ?_⟩
      · simp only [runGo]
        rw [ht]
        simp only [if_pos hw]
        rw [hexec]
        simp only []
        rw [hrun]
      · intro p0 i0 t0 h0
        by_cases hpi : (p0, i0) = (p, i)
        · have hp0 : p0 = p := congrArg Prod.fst hpi
          have hi0 : i0 = i := congrArg Prod.snd hpi
          subst hp0
          subst hi0
          have ht0 : t0 = t := Option.some.inj (h0.symm.trans ht)
          subst ht0
          have h1 : getTask (setTask q p0 i0 (updTask env t0)) p0 i0 = some (updTask env t0) :=
            getTask_setTask_same _ h0
          have h2 := hsome p0 i0 (updTask env t0) h1
          rw [if_neg (fun hc => hnotmem hc.1)] at h2
          rw [h2, if_pos ⟨List.mem_cons_self _ _, hw⟩]
        · have h1 : getTask (setTask q p i (updTask env t)) p0 i0 = some t0 := by
            rw [getTask_setTask_frame _ hpi]
            exact h0
          have h2 := hsome p0 i0 t0 h1
          have hiff : ((p0, i0) ∈ (p, i) :: rest ∧ t0.state = TaskState.WAITING)
              ↔ ((p0, i0) ∈ rest ∧ t0.state = TaskState.WAITING) := by
            constructor
            · rintro ⟨hm, hs⟩
              rcases List.mem_cons.mp hm with he | hm2
              · exact absurd he hpi
              · exact ⟨hm2, hs⟩
            · rintro ⟨hm, hs⟩
              exact ⟨List.mem_cons_of_mem _ hm, hs⟩
          rw [h2]
          exact congrArg some (if_congr hiff.symm rfl rfl)
      · intro p0 i0 h0
        have hpi : (p0, i0) ≠ (p, i) := by
          intro he
          have hp0 : p0 = p := congrArg Prod.fst he
          have hi0 : i0 = i := congrArg Prod.snd he
          rw [hp0, hi0, ht] at h0
          exact Option.noConfusion h0
        apply hnone
        rw [getTask_setTask_frame _ hpi]
        exact h0
      · rw [hshape, shape_setTask]
      · have hhead : taskWaiting q (p, i) = true := by
          simp [taskWaiting, ht, hw]
        rw [List.filter_cons, if_pos hhead, htr]
        congr 1
        apply List.filter_congr
        intro pj hj
        unfold taskWaiting
        rw [hframe pj hj]
      · have hhead : posOk env q (p, i) = (env.runner t.command).ok := by
          simp [posOk, ht]
        rw [List.map_cons, hhead, hbs]
        congr 1
        apply List.map_congr_left
        intro pj hj
        have hjr : pj ∈ rest := by
          rw [htr] at hj
          exact List.mem_of_mem_filter hj
        unfold posOk
        rw [hframe pj hjr]
    · obtain ⟨q', bs', tr', hrun, hsome, hnone, hshape, htr, hbs⟩ :=
        ih q hndr (fun pj hj => hval pj (List.mem_cons_of_mem _ hj))
      refine ⟨q', bs', tr', ?_, ?_, ?_, ?_, ?_, ?_⟩
      · simp only [runGo]
        rw [ht]
        simp only [if_neg hw]
        exact hrun
      · intro p0 i0 t0 h0
        by_cases hpi : (p0, i0) = (p, i)
        · have hp0 : p0 = p := congrArg Prod.fst hpi
          have hi0 : i0 = i := congrArg Prod.snd hpi
          subst hp0
          subst hi0
          have ht0 : t0 = t := Option.some.inj (h0.symm.trans ht)
          subst ht0
          have h2 := hsome p0 i0 t0 h0
          rw [if_neg (fun hc => hnotmem hc.1)] at h2
          rw [h2, if_neg (fun hc => hw hc.2)]
        · have h2 := hsome p0 i0 t0 h0
          have hiff : ((p0, i0) ∈ (p, i) :: rest ∧ t0.state = TaskState.WAITING)
              ↔ ((p0, i0) ∈ rest ∧ t0.state = TaskState.WAITING) := by
            constructor
            · rintro ⟨hm, hs⟩
              rcases List.mem_cons.mp hm with he | hm2
              · exact absurd he hpi
              · exact ⟨hm2, hs⟩
            · rintro ⟨hm, hs⟩
              exact ⟨List.mem_cons_of_mem _ hm, hs⟩
          rw [h2]
          exact congrArg some (if_congr hiff.symm rfl rfl)
      · exact hnone
      · exact hshape
      · have hhead : taskWaiting q (p, i) = false := by
          simp [taskWaiting, ht, hw]
        rw [List.filter_cons, if_neg (by simp [hhead]), htr]
      · exact hbs

/-! ### One full pass from a well-formed queue -/

/-- Specification of `run`'s traversal on a well-formed queue: it never
raises, each task that was `WAITING` is updated with the runner's
outcome, every other task is untouched, the skeleton is preserved, the
trace is exactly the `WAITING` positions in scheduling order, and the
collected results are the runner flags of the traced tasks. -/
theorem runAux_spec (env : ExecEnv) (q : Queue) (hwf : QueueWF q) :
    ∃ q' bs tr, runAux env q = some (q', bs, tr)
      ∧ (∀ p i t, getTask q p i = some t →
            getTask q' p i = some (if t.state = TaskState.WAITING then updTask env t else t))
      ∧ (∀ p i, getTask q p i = none → getTask q' p i = none)
      ∧ shape q' = shape q
      ∧ tr = (positions q).filter (fun pos => taskWaiting q pos)
      ∧ bs = tr.map (posOk env q) := by
  obtain ⟨q', bs, tr, hrun, hsome, hnone, hshape, htr, hbs⟩ :=
    runGo_spec env (positions q) q (positions_nodup hwf)
      (fun pos hm => (getTask_isSome_iff hwf pos.1 pos.2).mpr hm)
  refine ⟨q', bs, tr, hrun, ?_, hnone, hshape, htr, hbs⟩
  intro p i t h
  have hmem : (p, i) ∈ positions q :=
    (getTask_isSome_iff hwf p i).mp (by rw [h]; rfl)
  rw [hsome p i t h]
  by_cases hw : t.state = TaskState.WAITING
  · rw [if_pos ⟨hmem, hw⟩, if_pos hw]
  · rw [if_neg (fun hc => hw hc.2), if_neg hw]

/-- Same facts, phrased for a given outcome of the traversal. -/
theorem runAux_post {env : ExecEnv} {q q' : Queue} {bs : List Bool} {tr : List (Int × Nat)}
    (hwf : QueueWF q) (h : runAux env q = some (q', bs, tr)) :
    QueueWF q'
    ∧ (∀ p i t, getTask q p i = some t →
        getTask q' p i = some (if t.state = TaskState.WAITING then updTask env t else t))
    ∧ (∀ p i, getTask q p i = none → getTask q' p i = none)
    ∧ shape q' = shape q
    ∧ tr = (positions q).filter (fun pos => taskWaiting q pos)
    ∧ bs = tr.map (posOk env q) := by
  obtain ⟨q2, bs2, tr2, hrun2, hsome2, hnone2, hshape2, htr2, hbs2⟩ := runAux_spec env q hwf
  have he2 : (q', bs, tr) = (q2, bs2, tr2) := Option.some.inj (h.symm.trans hrun2)
  have hq : q' = q2 := congrArg (fun x => x.1) he2
  have hbsq : bs = bs2 := congrArg (fun x => x.2.1) he2
  have htrq : tr = tr2 := congrArg (fun x => x.2.2) he2
  subst hq
  subst hbsq
  subst htrq
  exact ⟨wf_of_shape_eq hshape2 hwf, hsome2, hnone2, hshape2, htr2, hbs2⟩

/-- A pass in which every listed position holds a non-`WAITING` task
executes nothing and leaves the queue untouched. -/
theorem runGo_all_skipped (env : ExecEnv) (ps : List (Int × Nat)) (q : Queue)
    (h : ∀ pos ∈ ps, ∃ t, getTask q pos.1 pos.2 = some t ∧ t.state ≠ TaskState.WAITING) :
    runGo env q ps = some (q, [], []) := by
  induction ps with
  | nil => rfl
  | cons pos rest ih =>
    obtain ⟨t, ht, hw⟩ := h pos (List.mem_cons_self _ _)
    simp only [runGo]
    rw [ht]
    simp only [if_neg hw]
    exact ih (fun pj hj => h pj (List.mem_cons_of_mem _ hj))

/-- The execution step always leaves the task in a terminal state. -/
theorem updTask_not_waiting (env : ExecEnv) (t : Task) :
    (updTask env t).state ≠ TaskState.WAITING := by
  unfold updTask
  by_cases h : (env.runner t.command).ok <;> simp [h]

/-- After a pass, every task of the queue is terminal. -/
theorem runAux_terminal {env : ExecEnv} {q q' : Queue} {bs : List Bool}
    {tr : List (Int × Nat)} (hwf : QueueWF q) (h : runAux env q = some (q', bs, tr)) :
    ∀ p i t', getTask q' p i = some t' → t'.state ≠ TaskState.WAITING := by
  obtain ⟨hwf', hsome, hnone, hshape, htr, hbs⟩ := runAux_post hwf h
  intro p i t' h'
  cases hq : getTask q p i with
  | none =>
    rw [hnone p i hq] at h'
    exact Option.noConfusion h'
  | some t =>
    have hs := hsome p i t hq
    rw [h'] at hs
    have ht' : t' = if t.state = TaskState.WAITING then updTask env t else t :=
      Option.some.inj hs
    by_cases hw : t.state = TaskState.WAITING
    · rw [if_pos hw] at ht'
      rw [ht']
      exact updTask_not_waiting env t
    · rw [if_neg hw] at ht'
      rw [ht']
      exact hw

/-- Running again right after a pass executes nothing: the traversal
returns the same queue, an empty result list and an empty trace. -/
theorem runAux_second (env : ExecEnv) {q q' : Queue} {bs : List Bool}
    {tr : List (Int × Nat)} (hwf : QueueWF q) (h : runAux env q = some (q', bs, tr)) :
    runAux env q' = some (q', [], []) := by
  have hwf' : QueueWF q' := (runAux_post hwf h).1
  have hnw := runAux_terminal hwf h
  unfold runAux
  apply runGo_all_skipped
  intro pos hm
  have hs : (getTask q' pos.1 pos.2).isSome := (getTask_isSome_iff hwf' pos.1 pos.2).mpr hm
  obtain ⟨t', ht'⟩ := Option.isSome_iff_exists.mp hs
  exact ⟨t', ht', hnw _ _ _ ht'⟩

/-! ### Lemmas about `add_task` -/

theorem findBucket_mapAppend (q : Queue) (p : Int) (t : Task) (p' : Int) :
    findBucket (q.map (fun e => if e.1 = p then (e.1, e.2 ++ [t]) else e)) p'
      = if p' = p then (findBucket q p).map (fun b => b ++ [t]) else findBucket q p' := by
  induction q with
  | nil => by_cases h : p' = p <;> simp [findBucket_nil, h]
  | cons e rest ih =>
    obtain ⟨p0, b0⟩ := e
    have hmap : ((p0, b0) :: rest).map (fun e => if e.1 = p then (e.1, e.2 ++ [t]) else e)
        = (if p0 = p then (p0, b0 ++ [t]) else (p0, b0))
          :: rest.map (fun e => if e.1 = p then (e.1, e.2 ++ [t]) else e) := by
      simp
    rw [hmap]
    by_cases h0 : p0 = p
    · by_cases h0' : p0 = p'
      · have hp : p' = p := h0'.symm.trans h0
        rw [if_pos hp, if_pos h0, findBucket_cons, findBucket_cons, if_pos h0', if_pos h0]
        simp
      · have hp : ¬ p' = p := fun he => h0' (h0.trans he.symm)
        rw [if_neg hp, if_pos h0, findBucket_cons, findBucket_cons, if_neg h0', if_neg h0',
          ih, if_neg hp]
    · by_cases h0' : p0 = p'
      · have hp : ¬ p' = p := fun he => h0 (h0'.trans he)
        rw [if_neg hp, if_neg h0, findBucket_cons, findBucket_cons, if_pos h0', if_pos h0']
      · rw [if_neg h0]
        by_cases hp : p' = p
        · rw [if_pos hp, findBucket_cons, findBucket_cons, if_neg h0', if_neg h0, ih, if_pos hp]
        · rw [if_neg hp, findBucket_cons, findBucket_cons, if_neg h0', if_neg h0', ih, if_neg hp]

theorem findBucket_isSome_of_find? {q : Queue} {p : Int}
    (h : (q.find? (fun e => e.1 = p)).isSome) : ∃ b, findBucket q p = some b := by
  obtain ⟨e, he⟩ := Option.isSome_iff_exists.mp h
  refine ⟨e.2, ?_⟩
  unfold findBucket
  rw [he]
  rfl

theorem findBucket_none_of_find? {q : Queue} {p : Int}
    (h : ¬ (q.find? (fun e => e.1 = p)).isSome) : findBucket q p = none := by
  unfold findBucket
  rw [Option.not_isSome_iff_eq_none.mp h]
  rfl

/-- The defaultdict append: the bucket at `p` gains `t` at its end (an
absent bucket counts as empty), every other bucket is untouched. -/
theorem findBucket_appendTask (q : Queue) (p : Int) (t : Task) (p' : Int) :
    findBucket (appendTask q p t) p'
      = if p' = p then some (((findBucket q p).getD []) ++ [t]) else findBucket q p' := by
  unfold appendTask
  by_cases h : (q.find? (fun e => e.1 = p)).isSome
  · rw [if_pos h, findBucket_mapAppend]
    obtain ⟨b, hb⟩ := findBucket_isSome_of_find? h
    by_cases hp : p' = p
    · rw [if_pos hp, if_pos hp, hb]
      rfl
    · rw [if_neg hp, if_neg hp]
  · rw [if_neg h]
    have hb : findBucket q p = none := findBucket_none_of_find? h
    by_cases hp : p' = p
    · subst hp
      rw [if_pos rfl, hb]
      have hfn : q.find? (fun e => decide (e.1 = p')) = none := by
        unfold findBucket at hb
        exact Option.map_eq_none'.mp hb
      unfold findBucket
      rw [List.find?_append, hfn]
      simp [List.find?]
    · rw [if_neg hp]
      unfold findBucket
      rw [List.find?_append]
      have htail : List.find? (fun e => decide (e.1 = p')) [(p, [t])] = none := by
        rw [List.find?_cons_of_neg]
        · rfl
        · simp
          exact fun he => hp he.symm
      rw [htail]
      simp

/-! ### Small characterizations used by the claim theorems -/

theorem taskWaiting_true_iff (q : Queue) (pos : Int × Nat) :
    taskWaiting q pos = true
      ↔ ∃ t, getTask q pos.1 pos.2 = some t ∧ t.state = TaskState.WAITING := by
  unfold taskWaiting
  cases h : getTask q pos.1 pos.2 with
  | none => simp
  | some t => simp

theorem posOk_eq (env : ExecEnv) (q : Queue) {pos : Int × Nat} {t : Task}
    (h : getTask q pos.1 pos.2 = some t) :
    posOk env q pos = (env.runner t.command).ok := by
  unfold posOk
  rw [h]

theorem run_eq_of_runAux {env : ExecEnv} {q : Queue} {ac : Bool} {q2 : Queue}
    {bs : List Bool} {tr : List (Int × Nat)} (h : runAux env q = some (q2, bs, tr)) :
    run env q ac = some ((if ac then [] else q2), bs.all id) := by
  unfold run
  rw [h]
  rfl

theorem run_inv {env : ExecEnv} {q : Queue} {ac : Bool} {q' : Queue} {r : Bool}
    (h : run env q ac = some (q', r)) :
    ∃ q2 bs tr, runAux env q = some (q2, bs, tr) ∧ r = bs.all id
      ∧ q' = (if ac then [] else q2) := by
  unfold run at h
  cases hr : runAux env q with
  | none =>
    rw [hr] at h
    exact Option.noConfusion h
  | some x =>
    obtain ⟨q2, bs, tr⟩ := x
    rw [hr] at h
    have he := Option.some.inj h
    exact ⟨q2, bs, tr, rfl, (congrArg (fun y => y.2) he).symm,
      (congrArg (fun y => y.1) he).symm⟩

theorem add_task_ok (q : Queue) (c : String) (p : Int) (h : 1 ≤ p ∧ p ≤ 10) :
    add_task q ⟨some c, some p⟩
      = (appendTask q p ⟨c, TaskState.WAITING, none, 0⟩, true) := by
  show (if 1 ≤ p ∧ p ≤ 10 then (appendTask q p ⟨c, TaskState.WAITING, none, 0⟩, true)
      else (q, false))
    = (appendTask q p ⟨c, TaskState.WAITING, none, 0⟩, true)
  rw [if_pos h]

theorem add_task_reject (q : Queue) (c : Option String) (p : Int)
    (h : ¬ (1 ≤ p ∧ p ≤ 10)) : add_task q ⟨c, some p⟩ = (q, false) := by
  show (if 1 ≤ p ∧ p ≤ 10 then
      (match c with
        | none => (q, false)
        | some c0 =>
          (appendTask q p ⟨c0, TaskState.WAITING, none, 0⟩, true))
      else (q, false))
    = (q, false)
  rw [if_neg h]

theorem add_task_no_command (q : Queue) (p : Int) :
    add_task q ⟨none, some p⟩ = (q, false) := by
  show (if 1 ≤ p ∧ p ≤ 10 then (q, false) else (q, false)) = (q, false)
  exact ite_self (q, false)

theorem all_id_map {α : Type} (f : α → Bool) (l : List α) :
    (l.map f).all id = l.all f := by
  induction l with
  | nil => rfl
  | cons x xs ih => simp [List.all_cons, ih]

/-! ### Claim theorems -/

/-- C3: for every priority `p` with `1 ≤ p ≤ 10`, `add_task` with a
present command succeeds — it returns `true` and appends a new task
(state `WAITING`, no output, elapsed `0`) at the end of the bucket for
`p`, creating the bucket if absent, leaving all other buckets unchanged;
for `p < 1` or `p > 10` it returns `false` and leaves the queue
completely unchanged. -/
theorem C3_priority_bounds (q : Queue) (c : String) (p : Int) :
    (1 ≤ p → p ≤ 10 →
      (add_task q ⟨some c, some p⟩).2 = true
      ∧ findBucket (add_task q ⟨some c, some p⟩).1 p
          = some (((findBucket q p).getD []) ++ [⟨c, TaskState.WAITING, none, 0⟩])
      ∧ (∀ p0, p0 ≠ p → findBucket (add_task q ⟨some c, some p⟩).1 p0 = findBucket q p0))
    ∧ (p < 1 ∨ 10 < p → add_task q ⟨some c, some p⟩ = (q, false)) := by
  constructor
  · intro h1 h10
    rw [add_task_ok q c p ⟨h1, h10⟩]
    refine ⟨rfl, ?_, ?_⟩
    · rw [findBucket_appendTask, if_pos rfl]
    · intro p0 hp0
      rw [findBucket_appendTask, if_neg hp0]
  · intro hbad
    apply add_task_reject
    intro hc
    rcases hbad with hl | hr
    · exact absurd hc.1 (not_le.mpr hl)
    · exact absurd hc.2 (not_le.mpr hr)

/-- C3 witness: priority 5 is accepted and appends the task; priority 0
is rejected and the queue is untouched. -/
theorem C3_priority_bounds_witness :
    ((add_task [] ⟨some "x", some 5⟩).2 = true
      ∧ findBucket (add_task [] ⟨some "x", some 5⟩).1 5
          = some (((findBucket ([] : Queue) 5).getD []) ++ [⟨"x", TaskState.WAITING, none, 0⟩])
      ∧ (∀ p0, p0 ≠ 5 → findBucket (add_task [] ⟨some "x", some 5⟩).1 p0
          = findBucket ([] : Queue) p0))
    ∧ add_task [] ⟨some "x", some 0⟩ = ([], false) :=
  ⟨(C3_priority_bounds [] "x" 5).1 (by decide) (by decide),
    (C3_priority_bounds [] "x" 0).2 (Or.inl (by decide))⟩

/-- C7: a submitted task missing the command field or missing the
priority field is rejected: `add_task` returns `false` and the queue is
completely unchanged (no bucket created, no task appended).  The
descriptive error goes to the log sink, which is outside the model. -/
theorem C7_missing_keys (q : Queue) (c : String) (p : Int) :
    add_task q ⟨none, some p⟩ = (q, false)
    ∧ add_task q ⟨some c, none⟩ = (q, false)
    ∧ add_task q ⟨none, none⟩ = (q, false) :=
  ⟨add_task_no_command q p, rfl, rfl⟩

/-- C6 counterexample: an empty command string is NOT rejected — with a
valid priority, `add_task` returns `true` and appends the task, so the
claim "empty command fails and leaves the queue unchanged" is false. -/
theorem C6_empty_command_counterexample :
    (add_task [] ⟨some "", some 5⟩).2 = true
    ∧ (add_task [] ⟨some "", some 5⟩).1 ≠ ([] : Queue) := by
  decide

/-- C6 (amended): `add_task` only requires the command field to be
present — a missing command is rejected leaving the queue unchanged, but
an empty command string with a valid priority is accepted (returns
`true` and appends a task whose command is the empty string). -/
theorem C6_command_presence (q : Queue) (p : Int) (h1 : 1 ≤ p) (h10 : p ≤ 10) :
    (add_task q ⟨some "", some p⟩).2 = true
    ∧ findBucket (add_task q ⟨some "", some p⟩).1 p
        = some (((findBucket q p).getD []) ++ [⟨"", TaskState.WAITING, none, 0⟩])
    ∧ add_task q ⟨none, some p⟩ = (q, false) := by
  rw [add_task_ok q "" p ⟨h1, h10⟩]
  exact ⟨rfl, by rw [findBucket_appendTask, if_pos rfl], add_task_no_command q p⟩

/-- C6 witness: the amended claim evaluated at priority 5 on the empty
queue. -/
theorem C6_command_presence_witness :
    (add_task [] ⟨some "", some 5⟩).2 = true
    ∧ findBucket (add_task [] ⟨some "", some 5⟩).1 5
        = some (((findBucket ([] : Queue) 5).getD []) ++ [⟨"", TaskState.WAITING, none, 0⟩])
    ∧ add_task [] ⟨none, some 5⟩ = ([], false) :=
  C6_command_presence [] 5 (by decide) (by decide)

/-- C10: calling the execution step for a priority that has no bucket is
not state-preserving: the defaultdict lookup inserts an empty bucket at
that key before the index error is raised, so the failed call mutates
the queue. -/
theorem C10_vivification (env : ExecEnv) (q : Queue) (p : Int) (i : Nat)
    (h : findBucket q p = none) :
    execute env q p i = (q ++ [(p, [])], none) ∧ q ++ [(p, [])] ≠ q := by
  constructor
  · unfold execute
    rw [h]
  · intro he
    have hlen := congrArg List.length he
    simp at hlen

/-- C10 witness: executing at priority 3 on the empty queue inserts an
empty bucket for 3 and raises. -/
theorem C10_vivification_witness :
    execute envDemo [] 3 0 = ([((3 : Int), ([] : List Task))], none)
    ∧ ([((3 : Int), ([] : List Task))] : Queue) ≠ [] := by
  have h := C10_vivification envDemo [] 3 0 (by decide)
  exact ⟨h.1, h.2⟩

/-- C1: `run` executes tasks in descending order of priority key across
buckets and, within a bucket, in insertion-index order (the executed
trace is pairwise ordered by `execBefore`); in particular the scenario
that adds tasks at priorities 1, 10, 1 in that order executes the
priority-10 task first, then the two priority-1 tasks in insertion
order. -/
theorem C1_execution_order :
    (∀ env q q' bs tr, QueueWF q → runAux env q = some (q', bs, tr) →
        tr.Pairwise execBefore)
    ∧ (∀ env, (runAux env scenarioQueue).map (fun r => r.2.2)
        = some [(10, 0), (1, 0), (1, 1)]) := by
  constructor
  · intro env q q' bs tr hwf h
    obtain ⟨_, _, _, _, htr, _⟩ := runAux_post hwf h
    rw [htr]
    exact (positions_pairwise hwf).filter _
  · intro env
    obtain ⟨q', bs, tr, hrun, _, _, _, htr, _⟩ := runAux_spec env scenarioQueue (by decide)
    rw [hrun]
    simp only [Option.map_some']
    exact congrArg some (by rw [htr]; decide)

/-- C1 witness: the scenario queue is well formed, the concrete trace is
`[(10,0), (1,0), (1,1)]`, and it satisfies the ordering. -/
theorem C1_execution_order_witness :
    QueueWF scenarioQueue
    ∧ ([((10 : Int), (0 : Nat)), (1, 0), (1, 1)]).Pairwise execBefore
    ∧ (runAux envDemo scenarioQueue).map (fun r => r.2.2) = some [(10, 0), (1, 0), (1, 1)] := by
  refine ⟨by decide, ?_, C1_execution_order.2 envDemo⟩
  exact C1_execution_order.1 envDemo scenarioQueue
    [(1, [⟨"one", TaskState.SUCCESS, some "out:one", 1⟩,
          ⟨"three", TaskState.SUCCESS, some "out:three", 1⟩]),
     (10, [⟨"two", TaskState.SUCCESS, some "out:two", 1⟩])]
    [true, true, true] [(10, 0), (1, 0), (1, 1)] (by decide) (by decide)

/-- C2: `run` returns `true` iff the command of every task that was
`WAITING` at the start of the pass succeeds under the runner; with no
`WAITING` task the right-hand side is vacuous and the result is `true`,
and already-terminal tasks do not enter the aggregate. -/
theorem C2_run_aggregate (env : ExecEnv) (q : Queue) (ac : Bool) (q' : Queue) (r : Bool)
    (hwf : QueueWF q) (h : run env q ac = some (q', r)) :
    r = true ↔ (∀ p i t, getTask q p i = some t → t.state = TaskState.WAITING →
      (env.runner t.command).ok = true) := by
  obtain ⟨q2, bs, tr, hrun, hr, hq⟩ := run_inv h
  obtain ⟨hwf2, hsome, hnone, hshape, htr, hbs⟩ := runAux_post hwf hrun
  subst hr
  rw [hbs, all_id_map, List.all_eq_true]
  constructor
  · intro hall p i t ht hwst
    have hmem : (p, i) ∈ positions q := (getTask_isSome_iff hwf p i).mp (by rw [ht]; rfl)
    have hwait : taskWaiting q (p, i) = true :=
      (taskWaiting_true_iff q (p, i)).mpr ⟨t, ht, hwst⟩
    have hintr : (p, i) ∈ tr := by
      rw [htr]
      exact List.mem_filter.mpr ⟨hmem, hwait⟩
    have hx := hall (p, i) hintr
    rw [@posOk_eq env q (p, i) t ht] at hx
    exact hx
  · intro hforall pos hpos
    rw [htr] at hpos
    obtain ⟨hmem, hwait⟩ := List.mem_filter.mp hpos
    obtain ⟨t, ht, hwst⟩ := (taskWaiting_true_iff q pos).mp hwait
    rw [posOk_eq env q ht]
    exact hforall pos.1 pos.2 t ht hwst

/-- C2 witness: the single-task failing queue returns `false`, matching
the aggregate characterization. -/
theorem C2_run_aggregate_witness :
    false = true ↔ (∀ p i t, getTask qFail p i = some t → t.state = TaskState.WAITING →
      (envDemo.runner t.command).ok = true) :=
  C2_run_aggregate envDemo qFail false
    [(3, [⟨"fail", TaskState.ERROR, some "out:fail", 1⟩])] false (by decide) (by decide)

/-- C4: the execution step on a present task absorbs the runner outcome
into the task: state `SUCCESS` when the runner succeeds and `ERROR`
when it fails, the captured output stored in both cases, the elapsed
time recorded (non-negative under a monotone clock), the boolean
verdict returned to the caller instead of an exception. -/
theorem C4_execute_outcome (env : ExecEnv) (q : Queue) (p : Int) (i : Nat) (t : Task)
    (ht : getTask q p i = some t) (hclock : 0 ≤ (env.runner t.command).elapsed) :
    ∃ t', getTask (execute env q p i).1 p i = some t'
      ∧ t'.state = (if (env.runner t.command).ok then TaskState.SUCCESS else TaskState.ERROR)
      ∧ t'.log = some (env.runner t.command).output
      ∧ t'.time_processing = (env.runner t.command).elapsed
      ∧ 0 ≤ t'.time_processing
      ∧ (execute env q p i).2 = some (env.runner t.command).ok := by
  have he := execute_getTask_some env ht
  refine ⟨updTask env t, ?_, rfl, rfl, rfl, hclock, ?_⟩
  · rw [he]
    exact getTask_setTask_same _ ht
  · rw [he]

/-- C4 witness: executing the failing task records `ERROR`, the captured
output, one elapsed second, and returns `false`. -/
theorem C4_execute_outcome_witness :
    getTask qFail 3 0 = some ⟨"fail", TaskState.WAITING, none, 0⟩
    ∧ (0 : Int) ≤ (envDemo.runner "fail").elapsed
    ∧ ∃ t', getTask (execute envDemo qFail 3 0).1 3 0 = some t'
      ∧ t'.state = (if (envDemo.runner "fail").ok then TaskState.SUCCESS else TaskState.ERROR)
      ∧ t'.log = some (envDemo.runner "fail").output
      ∧ t'.time_processing = (envDemo.runner "fail").elapsed
      ∧ 0 ≤ t'.time_processing
      ∧ (execute envDemo qFail 3 0).2 = some (envDemo.runner "fail").ok :=
  ⟨by decide, by decide,
    C4_execute_outcome envDemo qFail 3 0 ⟨"fail", TaskState.WAITING, none, 0⟩
      (by decide) (by decide)⟩

/-- C5: after `run(autoClear=false)` the queue still contains every task
(positions present before are present after, and vice versa) with its
updated state/output/elapsed (`updTask` of the runner outcome for tasks
that were `WAITING`, unchanged otherwise), and an immediately following
second `run` executes no task and returns `true` with the queue
untouched. -/
theorem C5_retention_rerun (env : ExecEnv) (q q' : Queue) (r : Bool)
    (hwf : QueueWF q) (h : run env q false = some (q', r)) :
    (∀ p i, (getTask q' p i).isSome ↔ (getTask q p i).isSome)
    ∧ (∀ p i t, getTask q p i = some t → ∃ t', getTask q' p i = some t'
        ∧ t'.command = t.command
        ∧ (t.state = TaskState.WAITING → t' = updTask env t)
        ∧ (t.state ≠ TaskState.WAITING → t' = t))
    ∧ runAux env q' = some (q', [], [])
    ∧ run env q' false = some (q', true) := by
  obtain ⟨q2, bs, tr, hrun, hr, hq⟩ := run_inv h
  have hq' : q' = q2 := hq
  subst hq'
  obtain ⟨hwf2, hsome, hnone, hshape, htr, hbs⟩ := runAux_post hwf hrun
  have hsecond := runAux_second env hwf hrun
  refine ⟨?_, ?_, hsecond, ?_⟩
  · intro p i
    constructor
    · intro hs
      by_contra hns
      rw [← Option.ne_none_iff_isSome] at hns
      rw [not_not] at hns
      rw [hnone p i hns] at hs
      simp at hs
    · intro hs
      obtain ⟨t, ht⟩ := Option.isSome_iff_exists.mp hs
      rw [hsome p i t ht]
      rfl
  · intro p i t ht
    by_cases hw : t.state = TaskState.WAITING
    · refine ⟨updTask env t, ?_, rfl, fun _ => rfl, fun hnw => absurd hw hnw⟩
      rw [hsome p i t ht, if_pos hw]
    · refine ⟨t, ?_, rfl, fun hww => absurd hww hw, fun _ => rfl⟩
      rw [hsome p i t ht, if_neg hw]
  · rw [run_eq_of_runAux hsecond]
    rfl

/-- C5 witness: re-running the executed scenario queue changes nothing
and returns `true`. -/
theorem C5_retention_rerun_witness :
    run envDemo
      [(1, [⟨"one", TaskState.SUCCESS, some "out:one", 1⟩,
            ⟨"three", TaskState.SUCCESS, some "out:three", 1⟩]),
       (10, [⟨"two", TaskState.SUCCESS, some "out:two", 1⟩])] false
      = some ([(1, [⟨"one", TaskState.SUCCESS, some "out:one", 1⟩,
            ⟨"three", TaskState.SUCCESS, some "out:three", 1⟩]),
       (10, [⟨"two", TaskState.SUCCESS, some "out:two", 1⟩])], true) :=
  (C5_retention_rerun envDemo scenarioQueue
    [(1, [⟨"one", TaskState.SUCCESS, some "out:one", 1⟩,
          ⟨"three", TaskState.SUCCESS, some "out:three", 1⟩]),
     (10, [⟨"two", TaskState.SUCCESS, some "out:two", 1⟩])] true
    (by decide) (by decide)).2.2.2

/-- C8: `clear_queue` unconditionally discards all buckets and tasks
(also on a never-run or empty queue), and `run(autoClear=true)` leaves
the queue empty. -/
theorem C8_autoclear :
    (∀ q, clear_queue q = [])
    ∧ (∀ env q, QueueWF q → ∃ r, run env q true = some ([], r)) := by
  refine ⟨fun q => rfl, fun env q hwf => ?_⟩
  obtain ⟨q2, bs, tr, hrun, _, _, _, _, _⟩ := runAux_spec env q hwf
  exact ⟨bs.all id, by rw [run_eq_of_runAux hrun]; rfl⟩

/-- C8 witness: clearing the scenario queue empties it, and running it
with auto-clear leaves the empty queue. -/
theorem C8_autoclear_witness :
    clear_queue scenarioQueue = []
    ∧ ∃ r, run envDemo scenarioQueue true = some ([], r) :=
  ⟨C8_autoclear.1 scenarioQueue, C8_autoclear.2 envDemo scenarioQueue (by decide)⟩

/-- C9: a task is admitted in state `WAITING`; during a pass a terminal
(`SUCCESS`/`ERROR`) task is left untouched while a `WAITING` task
transitions exactly once to a terminal state; and after the pass a
further pass executes nothing, so a task is never re-executed. -/
theorem C9_single_transition (env : ExecEnv) (q q' : Queue) (r : Bool)
    (hwf : QueueWF q) (h : run env q false = some (q', r)) :
    (∀ q0 c p, 1 ≤ p → p ≤ 10 →
        getTask (add_task q0 ⟨some c, some p⟩).1 p (((findBucket q0 p).getD []).length)
          = some ⟨c, TaskState.WAITING, none, 0⟩)
    ∧ (∀ p i t, getTask q p i = some t → t.state ≠ TaskState.WAITING →
        getTask q' p i = some t)
    ∧ (∀ p i t, getTask q p i = some t → t.state = TaskState.WAITING →
        getTask q' p i = some (updTask env t) ∧ (updTask env t).state ≠ TaskState.WAITING)
    ∧ runAux env q' = some (q', [], []) := by
  obtain ⟨q2, bs, tr, hrun, hr, hq⟩ := run_inv h
  have hq' : q' = q2 := hq
  subst hq'
  obtain ⟨hwf2, hsome, hnone, hshape, htr, hbs⟩ := runAux_post hwf hrun
  refine ⟨?_, ?_, ?_, runAux_second env hwf hrun⟩
  · intro q0 c p h1 h10
    rw [add_task_ok q0 c p ⟨h1, h10⟩]
    have happ := findBucket_appendTask q0 p ⟨c, TaskState.WAITING, none, 0⟩ p
    rw [if_pos rfl] at happ
    unfold getTask
    rw [happ]
    simp only [Option.some_bind]
    exact List.get?_concat_length _ _
  · intro p i t ht hnw
    rw [hsome p i t ht, if_neg hnw]
  · intro p i t ht hwst
    exact ⟨by rw [hsome p i t ht, if_pos hwst], updTask_not_waiting env t⟩

/-- C9 witness: after running the failing single-task queue, a second
pass executes nothing. -/
theorem C9_single_transition_witness :
    runAux envDemo [(3, [⟨"fail", TaskState.ERROR, some "out:fail", 1⟩])]
      = some ([(3, [⟨"fail", TaskState.ERROR, some "out:fail", 1⟩])], [], []) :=
  (C9_single_transition envDemo qFail
    [(3, [⟨"fail", TaskState.ERROR, some "out:fail", 1⟩])] false
    (by decide) (by decide)).2.2.2

end PQ
